import Mathlib

/-!
Verification development for the orc workflow engine.

Shallow embedding of the engine's Go sources:
  internal/dispatch/expand.go, script.go, dispatch.go, agent.go, the
  stream processor, internal/config/validate.go, internal/state
  (artifacts.go, timing.go, state.go, atomic.go) and the runner loop.

Go maps are modelled as association lists (lookup ignores entry order,
exactly as a Go map does), Go strings as Lean strings over their
character lists, the process environment as an explicit total function
from names to values (os.Getenv of an unset name returns the empty
string), and subprocess/file-system effects as explicit oracles or
state threaded through the functions.
-/

namespace Orc

/-- Association-list model of a Go map from strings to strings. -/
abbrev VarMap := List (String × String)

/-- Lookup in a Go string map: the value stored at a key, if present. -/
def lookupVar : VarMap → String → Option String
  | [], _ => none
  | (k, v) :: rest, key => if k = key then some v else lookupVar rest key

/-- Assignment m[key] = val in a Go string map: replaces an existing
entry or adds a new one. -/
def setVar : VarMap → String → String → VarMap
  | [], key, val => [(key, val)]
  | (k, v) :: rest, key, val =>
      if k = key then (k, val) :: rest else (k, v) :: setVar rest key val

/-- Copying every entry of the second map into the first, as the Go
pattern (for k, v := range over) base[k] = v does. -/
def setAll (base : VarMap) (over : VarMap) : VarMap :=
  over.foldl (fun acc kv => setVar acc kv.1 kv.2) base

/-- The opening-brace character, written by code point to keep brace
characters out of the source text. -/
def lbraceChar : Char := Char.ofNat 123

/-- The closing-brace character, written by code point. -/
def rbraceChar : Char := Char.ofNat 125

/-- Predicate isAlphaNum of Go's os package: underscore, digits and
ASCII letters. -/
def isAlphaNumGo (c : Char) : Bool :=
  c = '_' || (Nat.ble 48 c.toNat && Nat.ble c.toNat 57)
    || (Nat.ble 97 c.toNat && Nat.ble c.toNat 122)
    || (Nat.ble 65 c.toNat && Nat.ble c.toNat 90)

/-- Predicate isShellSpecialVar of Go's os package. -/
def isShellSpecialVar (c : Char) : Bool :=
  c = '*' || c = '#' || c = '$' || c = '@' || c = '!' || c = '?'
    || (Nat.ble 48 c.toNat && Nat.ble c.toNat 57)

/-- Scan after an opening brace for the matching closing brace, as the
loop inside Go's getShellName does. The first argument is the text after
the opening brace, the counter starts at 1 (the index of the first
scanned character in the whole dollar-suffix), and the accumulator
collects the name seen so far. Returns (name, width consumed). An
immediately closing brace is the bad-syntax case (empty name, width 2);
a missing closing brace eats only the opening brace (empty name,
width 1). -/
def scanToBrace : List Char → Nat → List Char → (List Char × Nat)
  | [], _, _ => ([], 1)
  | c :: rest, i, acc =>
      if c = rbraceChar then
        (if i = 1 then ([], 2) else (acc, i + 1))
      else scanToBrace rest (i + 1) (acc ++ [c])

/-- Function getShellName of Go's os package: reads a shell variable
name from the text following a dollar sign, returning the name and the
number of characters consumed. -/
def getShellName : List Char → (List Char × Nat)
  | [] => ([], 0)
  | c :: rest =>
      if c = lbraceChar then
        match rest with
        | c1 :: c2 :: _ =>
            if isShellSpecialVar c1 && c2 = rbraceChar then ([c1], 3)
            else scanToBrace rest 1 []
        | _ => scanToBrace rest 1 []
      else if isShellSpecialVar c then ([c], 1)
      else
        let nm := (c :: rest).takeWhile isAlphaNumGo
        (nm, nm.length)

/-- Function os.Expand of the Go standard library over a character
list: substitutes dollar-name and dollar-brace-name occurrences using
the mapping, eats bad syntax, and leaves a dollar sign not followed by
a name untouched. The fuel argument only bounds the number of loop
steps so that the recursion is structural; every step consumes at
least one character, so fuel equal to the list length (as goExpandList
supplies) never runs out. -/
def goExpandAux (mapping : List Char → String) : Nat → List Char → List Char
  | 0, l => l
  | _, [] => []
  | fuel + 1, c :: rest =>
      if c = '$' then
        if rest = [] then ['$']
        else
          let p := getShellName rest
          if p.1 = [] && Nat.blt 0 p.2 then
            goExpandAux mapping fuel (rest.drop p.2)
          else if p.1 = [] then
            '$' :: goExpandAux mapping fuel rest
          else
            (mapping p.1).data ++ goExpandAux mapping fuel (rest.drop p.2)
      else c :: goExpandAux mapping fuel rest

/-- Function os.Expand of the Go standard library over a character
list, with the fuel of goExpandAux instantiated to the list length. -/
def goExpandList (mapping : List Char → String) (l : List Char) : List Char :=
  goExpandAux mapping l.length l

/-- Function os.Expand of the Go standard library on strings. -/
def goExpand (s : String) (mapping : String → String) : String :=
  String.mk (goExpandList (fun nm => mapping (String.mk nm)) s.data)

/-- Function ExpandVars of internal/dispatch/expand.go: substitutes
variables in the template using the vars map, falling back to the
process environment (modelled by the explicit genv argument; os.Getenv
of an unset variable is the empty string). -/
def ExpandVars (template : String) (vars : VarMap) (genv : String → String) : String :=
  goExpand template (fun key =>
    match lookupVar vars key with
    | some v => v
    | none => genv key)

/-- Loop body of ExpandConfigVars of internal/dispatch/expand.go: for
each entry in declaration order, build the lookup map as the built-ins
overridden by the results so far, expand the entry's value against it,
and store the result. -/
def expandConfigLoop (builtins : VarMap) (genv : String → String) :
    List (String × String) → VarMap → VarMap
  | [], result => result
  | (k, v) :: rest, result =>
      expandConfigLoop builtins genv rest
        (setVar result k (ExpandVars v (setAll builtins result) genv))

/-- Function ExpandConfigVars of internal/dispatch/expand.go: expands
ordered var entries in declaration order; each value is expanded using
built-ins plus all previously expanded custom vars. -/
def ExpandConfigVars (vars : List (String × String)) (builtins : VarMap)
    (genv : String → String) : VarMap :=
  expandConfigLoop builtins genv vars []

/-- An empty process environment (every variable unset, so os.Getenv
returns the empty string). -/
def emptyEnv : String → String := fun _ => ""

lemma lookupVar_setVar_self (m : VarMap) (k v : String) :
    lookupVar (setVar m k v) k = some v := by
  induction m with
  | nil => simp [setVar, lookupVar]
  | cons kv rest ih =>
      obtain ⟨k0, v0⟩ := kv
      by_cases h : k0 = k
      · simp [setVar, h, lookupVar]
      · simp [setVar, h, lookupVar, ih]

lemma lookupVar_setVar_ne (m : VarMap) (k v key : String) (h : k ≠ key) :
    lookupVar (setVar m k v) key = lookupVar m key := by
  induction m with
  | nil => simp [setVar, lookupVar, h]
  | cons kv rest ih =>
      obtain ⟨k0, v0⟩ := kv
      by_cases h0 : k0 = k
      · subst h0
        simp [setVar, lookupVar, h]
      · simp [setVar, h0, lookupVar, ih]

lemma expandConfigLoop_append (builtins : VarMap) (genv : String → String)
    (xs ys : List (String × String)) (res : VarMap) :
    expandConfigLoop builtins genv (xs ++ ys) res
      = expandConfigLoop builtins genv ys (expandConfigLoop builtins genv xs res) := by
  induction xs generalizing res with
  | nil => simp [expandConfigLoop]
  | cons e rest ih =>
      obtain ⟨k, v⟩ := e
      simp [expandConfigLoop, ih]

lemma expandConfigLoop_lookup_of_not_key (builtins : VarMap) (genv : String → String)
    (entries : List (String × String)) (res : VarMap) (key : String)
    (h : ∀ e ∈ entries, e.1 ≠ key) :
    lookupVar (expandConfigLoop builtins genv entries res) key = lookupVar res key := by
  induction entries generalizing res with
  | nil => simp [expandConfigLoop]
  | cons e rest ih =>
      obtain ⟨k, v⟩ := e
      have hk : k ≠ key := h (k, v) (by simp)
      have hrest : ∀ e ∈ rest, e.1 ≠ key := fun e he => h e (by simp [he])
      rw [expandConfigLoop, ih _ hrest, lookupVar_setVar_ne _ _ _ _ hk]

/-- C9: ExpandConfigVars resolves the declaration-ordered variable list
into a flat map in which each entry's value is expanded against the
built-ins plus all previously resolved entries (later entries may
reference earlier ones), with the process environment as the outermost
fallback; in particular entries (A, x) and (B, dollar-A slash y)
resolve to A = x and B = x slash y, and an entry referencing a name
bound only in the process environment falls back to it. -/
theorem ExpandConfigVars_ordered_resolution :
    (∀ (vs rest : List (String × String)) (k v : String) (b : VarMap) (g : String → String),
        (∀ e ∈ rest, e.1 ≠ k) →
        lookupVar (ExpandConfigVars (vs ++ (k, v) :: rest) b g) k
          = some (ExpandVars v (setAll b (ExpandConfigVars vs b g)) g))
    ∧ ExpandConfigVars [("A", "x"), ("B", "$A/y")] [] emptyEnv = [("A", "x"), ("B", "x/y")]
    ∧ ExpandConfigVars [("C", "$HOME/z")] []
        (fun k => if k = "HOME" then "/home/u" else "") = [("C", "/home/u/z")] := by
  refine ⟨?_, rfl, rfl⟩
  intro vs rest k v b g h
  unfold ExpandConfigVars
  rw [expandConfigLoop_append]
  simp only [expandConfigLoop]
  rw [expandConfigLoop_lookup_of_not_key _ _ _ _ _ h, lookupVar_setVar_self]

/-- Witness for C9: the general ordered-resolution statement applied to
the concrete two-entry example from the specification, together with
the evaluated expansion. -/
theorem ExpandConfigVars_ordered_resolution_witness :
    lookupVar (ExpandConfigVars ([("A", "x")] ++ ("B", "$A/y") :: []) [] emptyEnv) "B"
        = some (ExpandVars ("$A/y") (setAll [] (ExpandConfigVars [("A", "x")] [] emptyEnv)) emptyEnv)
    ∧ ExpandVars ("$A/y") (setAll [] (ExpandConfigVars [("A", "x")] [] emptyEnv)) emptyEnv = "x/y" :=
  ⟨ExpandConfigVars_ordered_resolution.1 [("A", "x")] [] "B" "$A/y" [] emptyEnv
      (by intro e he; cases he), rfl⟩

/-- Regular expressions over characters, with character classes given
as boolean predicates. This is the semantic model for the fragment of
Go's regexp syntax that ticket patterns use (literals, classes,
concatenation, alternation, repetition); the start and end anchors are
carried separately by GoPattern. -/
inductive RE where
  | emp : RE
  | eps : RE
  | cls (p : Char → Bool) : RE
  | seq (r s : RE) : RE
  | alt (r s : RE) : RE
  | star (r : RE) : RE

/-- Whether a regular expression accepts the empty word. -/
def RE.nullable : RE → Bool
  | .emp => false
  | .eps => true
  | .cls _ => false
  | .seq r s => r.nullable && s.nullable
  | .alt r s => r.nullable || s.nullable
  | .star _ => true

/-- Brzozowski derivative of a regular expression by one character. -/
def RE.deriv : RE → Char → RE
  | .emp, _ => .emp
  | .eps, _ => .emp
  | .cls p, c => if p c then .eps else .emp
  | .seq r s, c =>
      if r.nullable then .alt (.seq (r.deriv c) s) (s.deriv c)
      else .seq (r.deriv c) s
  | .alt r s, c => .alt (r.deriv c) (s.deriv c)
  | .star r, c => .seq (r.deriv c) (.star r)

/-- Whether the expression matches the whole character list. -/
def fullMatchChars (r : RE) (cs : List Char) : Bool :=
  (cs.foldl RE.deriv r).nullable

/-- Whether the expression matches some initial segment of the text:
the semantics of Go's MatchString for a pattern anchored only at the
start. -/
def startAnchoredMatch (r : RE) (cs : List Char) : Bool :=
  (List.range (cs.length + 1)).any (fun j => fullMatchChars r (cs.take j))

/-- Whether the expression matches some final segment of the text: the
semantics of Go's MatchString for a pattern anchored only at the
end. -/
def endAnchoredMatch (r : RE) (cs : List Char) : Bool :=
  (List.range (cs.length + 1)).any (fun i => fullMatchChars r (cs.drop i))

/-- Whether the expression matches anywhere inside the text: the
semantics of Go's MatchString for an unanchored pattern. -/
def anywhereMatch (r : RE) (cs : List Char) : Bool :=
  (List.range (cs.length + 1)).any (fun i => startAnchoredMatch r (cs.drop i))

/-- A compiled Go regexp whose only anchors are an optional leading
caret and an optional trailing dollar: the two flags record those
anchors and the body is the anchor-free remainder of the pattern. -/
structure GoPattern where
  caret : Bool
  dollar : Bool
  body : RE

/-- Semantics of Go's regexp MatchString on a GoPattern: a match may
start and end anywhere unless the corresponding anchor is present. -/
def goMatchString (p : GoPattern) (cs : List Char) : Bool :=
  match p.caret, p.dollar with
  | true, true => fullMatchChars p.body cs
  | true, false => startAnchoredMatch p.body cs
  | false, true => endAnchoredMatch p.body cs
  | false, false => anywhereMatch p.body cs

/-- The anchoring step of ValidateTicket in internal/config/validate.go:
a pattern that does not already begin with a caret is wrapped as
caret-group-dollar (full anchoring); a pattern that begins with a caret
is left exactly as written. A trailing dollar already inside a wrapped
pattern is subsumed by the added end anchor, so the body is kept
unchanged in the representation. -/
def anchorPattern (p : GoPattern) : GoPattern :=
  if p.caret then p else { caret := true, dollar := true, body := p.body }

/-- Function ValidateTicket of internal/config/validate.go, with the
pattern already in compiled form (none models the empty pattern, which
accepts every ticket; compilation of a GoPattern cannot fail, so the
invalid-pattern error branch is unreachable in this model). Returns
true when the ticket is accepted. -/
def ValidateTicket (p : Option GoPattern) (ticket : String) : Bool :=
  match p with
  | none => true
  | some pat => goMatchString (anchorPattern pat) ticket.data

/-- Whether the entire ticket string matches the pattern as written:
with the whole string forced, the optional leading and trailing
anchors are vacuous, so this is a full match of the body. -/
def wholeTicketMatches (p : GoPattern) (ticket : String) : Bool :=
  fullMatchChars p.body ticket.data

/-- Character class of ASCII upper-case letters, as in the ticket
pattern bracket class A to Z. -/
def upperClass : Char → Bool := fun c => Nat.ble 65 c.toNat && Nat.ble c.toNat 90

/-- Character class of ASCII digits, as in the backslash-d class. -/
def digitClass : Char → Bool := fun c => Nat.ble 48 c.toNat && Nat.ble c.toNat 57

/-- One-or-more repetition, the plus operator. -/
def RE.plus (r : RE) : RE := .seq r (.star r)

/-- Body of the documented ticket pattern: one or more upper-case
letters, a hyphen, one or more digits. -/
def ticketRE : RE :=
  .seq (RE.plus (.cls upperClass))
    (.seq (.cls (fun c => c == '-')) (RE.plus (.cls digitClass)))

/-- Counterexample for C8: the claim quantifies over every configured
ticket pattern, but a pattern that already begins with a caret is
compiled exactly as written, so the caret-prefixed ticket pattern
(without a trailing dollar) accepts a ticket with trailing garbage
even though the entire ticket does not match. -/
theorem ValidateTicket_caret_pattern_not_full_match :
    ValidateTicket (some { caret := true, dollar := false, body := ticketRE })
        ("PROJ-1 && rm -rf /") = true
    ∧ wholeTicketMatches { caret := true, dollar := false, body := ticketRE }
        ("PROJ-1 && rm -rf /") = false := by
  constructor
  · decide
  · decide

/-- C8 amended: for every ticket pattern that does not already begin
with a caret, ValidateTicket auto-anchors the pattern and accepts the
ticket exactly when the entire ticket string matches; in particular the
documented pattern (upper-case letters, hyphen, digits, unanchored)
accepts PROJ-1 and rejects the same ticket followed by a shell
injection. A pattern that already begins with a caret is compiled as
written and is therefore only anchored as written. -/
theorem ValidateTicket_full_match_on_unanchored :
    (∀ (body : RE) (dollar : Bool) (t : String),
        ValidateTicket (some { caret := false, dollar := dollar, body := body }) t
          = wholeTicketMatches { caret := false, dollar := dollar, body := body } t)
    ∧ ValidateTicket (some { caret := false, dollar := false, body := ticketRE })
        ("PROJ-1") = true
    ∧ ValidateTicket (some { caret := false, dollar := false, body := ticketRE })
        ("PROJ-1 && rm -rf /") = false := by
  refine ⟨fun body dollar t => rfl, by decide, by decide⟩

/-- On-failure policy of internal/config (struct OnFail): goto target
name and maximum retry count. -/
structure OnFail where
  goto : String
  max : Int

/-- Phase of internal/config (struct Phase). The ptype field models the
Go field named Type. -/
structure Phase where
  name : String := ""
  ptype : String := ""
  description : String := ""
  prompt : String := ""
  run : String := ""
  model : String := ""
  timeout : Int := 0
  outputs : List String := []
  condition : String := ""
  parallelWith : String := ""
  onFail : Option OnFail := none
  cwd : String := ""
  allowTools : List String := []

/-- Workflow configuration of internal/config (struct Config), reduced
to the fields the engine consumes. -/
structure Config where
  name : String := ""
  phases : List Phase := []

/-- Loop of Config.PhaseIndex: first index whose phase has the given
name, counting from the supplied start index. -/
def phaseIndexLoop : List Phase → Int → String → Int
  | [], _, _ => -1
  | p :: rest, i, nm => if p.name = nm then i else phaseIndexLoop rest (i + 1) nm

/-- Method PhaseIndex of internal/config: the index of the named phase,
or minus one if not found. -/
def Config.PhaseIndex (c : Config) (nm : String) : Int :=
  phaseIndexLoop c.phases 0 nm

/-- Execution environment of internal/dispatch (struct Environment),
viewed by value; the reference-level view used for the aliasing claim
is EnvironmentRef below. -/
structure Environment where
  projectRoot : String := ""
  workDir : String := ""
  artifactsDir : String := ""
  ticket : String := ""
  phaseIndex : Int := 0
  autoMode : Bool := false
  phaseCount : Int := 0
  customVars : VarMap := []

/-- Method Vars of internal/dispatch/dispatch.go: the substitution map,
custom vars first, built-ins written afterwards so that they always
win. -/
def Environment.Vars (e : Environment) : VarMap :=
  setAll e.customVars
    [("TICKET", e.ticket), ("ARTIFACTS_DIR", e.artifactsDir),
     ("WORK_DIR", e.workDir), ("PROJECT_ROOT", e.projectRoot)]

/-- Function PhaseWorkDir of internal/dispatch/dispatch.go: a non-empty
per-phase cwd is expanded with the full vars map, an empty expansion
falls back to the environment's working directory; without a cwd the
environment's working directory is used. -/
def PhaseWorkDir (phase : Phase) (env : Environment) (genv : String → String) : String :=
  if phase.cwd ≠ "" then
    let expanded := ExpandVars phase.cwd env.Vars genv
    if expanded = "" then env.workDir else expanded
  else env.workDir

/-- Path of a phase log file, function LogPath of
internal/state/artifacts.go (filepath.Join modelled as slash
concatenation; the phase file names are one-indexed). -/
def LogPath (artifactsDir : String) (idx : Int) : String :=
  artifactsDir ++ "/logs/phase-" ++ toString (idx + 1) ++ ".log"

/-- Path of a rendered prompt file, function PromptPath of
internal/state/artifacts.go. -/
def PromptPath (artifactsDir : String) (idx : Int) : String :=
  artifactsDir ++ "/prompts/phase-" ++ toString (idx + 1) ++ ".md"

/-- The observable subprocess invocation a script phase produces. -/
structure ScriptInvocation where
  argv : List String
  dir : String
  logPath : String

/-- Function RunScript of internal/dispatch/script.go, restricted to
the fields of the subprocess invocation it builds: the command text is
expanded against the variable map and run through bash with the -c
flag, the child directory is set to the environment's working
directory, and the phase log is created. The timeout wrapper, child
environment assembly, stream teeing and exit-code extraction do not
affect these fields and are not modelled. -/
def RunScript (phase : Phase) (env : Environment) (genv : String → String) : ScriptInvocation :=
  { argv := ["bash", "-c", ExpandVars phase.run env.Vars genv]
  , dir := env.workDir
  , logPath := LogPath env.artifactsDir env.phaseIndex }

/-- A script phase carrying a working-directory override, and an
environment whose working directory differs from it. -/
def c6Phase : Phase := { name := "build", ptype := "script", run := "make", cwd := "/custom" }

/-- Environment for the working-directory counterexample. -/
def c6Env : Environment :=
  { projectRoot := "/proj", workDir := "/work", artifactsDir := "/art", ticket := "T-1" }

/-- C6: the claim says RunScript sets the child working directory from
the per-phase override when present; in the source RunScript assigns
cmd.Dir from env.WorkDir unconditionally, so a script phase with a cwd
override still runs in the environment's working directory even though
PhaseWorkDir (used by the agent dispatcher, and implied supported for
script phases by the validator, which rejects cwd only on gate phases)
resolves the override. -/
theorem RunScript_ignores_cwd_override :
    (RunScript c6Phase c6Env emptyEnv).dir = "/work"
    ∧ PhaseWorkDir c6Phase c6Env emptyEnv = "/custom"
    ∧ (RunScript c6Phase c6Env emptyEnv).dir ≠ PhaseWorkDir c6Phase c6Env emptyEnv := by
  refine ⟨rfl, by decide, by decide⟩

/-- Variable defaultAllowTools of internal/dispatch/agent.go: the
hard-coded tool set always passed to the agent CLI. -/
def defaultAllowTools : List String :=
  ["Read", "Edit", "Write", "Glob", "Grep", "Task", "WebFetch", "WebSearch"]

/-- The tool-merging loop of buildAgentArgs: appends each tool of each
list in order, skipping tools already appended (the seen map of the
source is modelled by membership in the accumulated list). -/
def mergeTools (lists : List (List String)) : List String :=
  lists.foldl
    (fun acc l => l.foldl (fun acc2 t => if t ∈ acc2 then acc2 else acc2 ++ [t]) acc) []

/-- Function buildAgentArgs of internal/dispatch/agent.go: the claude
CLI argument list for one agent turn. Note the signature of the source
function: it receives the phase, the prompt, the session id with the
first-turn flag, and the dynamically approved extra tools; no
parameter carries workflow-wide default permissions from the
configuration. -/
def buildAgentArgs (phase : Phase) (prompt sessionID : String) (isFirst : Bool)
    (extraTools : List String) : List String :=
  let args := ["-p", prompt, "--output-format", "stream-json", "--verbose",
               "--include-partial-messages", "--model", phase.model]
  let args := args ++
    (if sessionID ≠ "" then
      (if isFirst then ["--session-id", sessionID] else ["--resume", sessionID])
     else [])
  let tools := mergeTools [defaultAllowTools, phase.allowTools, extraTools]
  if tools ≠ [] then args ++ ["--allowedTools"] ++ tools else args

/-- An agent phase with one phase-specific tool addition, dispatched in
a workflow whose configuration declares a workflow-wide default tool
(the configured tool appears nowhere in the argument assembly). -/
def c7Phase : Phase := { name := "plan", ptype := "agent", model := "opus", allowTools := ["Bash"] }

/-- C7: the claim says the tool list merges the hard-coded defaults,
the workflow-wide default permissions from the configuration, and the
phase-specific additions; buildAgentArgs in the source merges only the
hard-coded defaults, the phase additions and the dynamically approved
extra tools, and has no access to the configuration's
default-allow-tools list, so a configured workflow-wide tool (here the
atlassian wildcard) never reaches the argument list. -/
theorem buildAgentArgs_omits_config_default_tools :
    buildAgentArgs c7Phase ("p") ("") true []
      = ["-p", "p", "--output-format", "stream-json", "--verbose",
         "--include-partial-messages", "--model", "opus", "--allowedTools",
         "Read", "Edit", "Write", "Glob", "Grep", "Task", "WebFetch", "WebSearch", "Bash"]
    ∧ "mcp__atlassian__*" ∉ buildAgentArgs c7Phase ("p") ("") true [] := by
  refine ⟨by decide, by decide⟩

/-- Reference-level model of the dispatch Environment struct: Go maps
and slices are reference values, so customVarsRef and filteredEnvRef
hold references into explicit heaps, and copying the struct copies the
references, not the referenced storage. A none reference models a nil
map or slice. -/
structure EnvironmentRef where
  projectRoot : String := ""
  workDir : String := ""
  artifactsDir : String := ""
  ticket : String := ""
  phaseIndex : Int := 0
  autoMode : Bool := false
  phaseCount : Int := 0
  customVarsRef : Option Nat := none
  filteredEnvRef : Option Nat := none

/-- Heap of map storage referenced by environments. -/
abbrev MapHeap := Nat → VarMap

/-- Heap of string-slice storage referenced by environments. -/
abbrev SliceHeap := Nat → List String

/-- Worker environment derivation in Runner.runParallel of
internal/runner/runner.go: the source copies the struct (env1 gets the
dereferenced value of r.Env) and then sets the phase index; reference
fields are copied unchanged, so the copy shares storage with the
original. -/
def runParallelWorkerEnv (e : EnvironmentRef) (idx : Int) : EnvironmentRef :=
  { e with phaseIndex := idx }

/-- Method Clone of internal/dispatch/dispatch.go: a deep copy that
allocates fresh storage for a non-nil CustomVars map and a non-nil
filteredEnv slice, copying their contents; the fresh references are
supplied by the caller's allocator. -/
def EnvironmentRef.Clone (e : EnvironmentRef) (mh : MapHeap) (sh : SliceHeap)
    (freshM freshS : Nat) : EnvironmentRef × MapHeap × SliceHeap :=
  let mcopy : Option Nat × MapHeap :=
    match e.customVarsRef with
    | none => (none, mh)
    | some r => (some freshM, fun n => if n = freshM then mh r else mh n)
  let scopy : Option Nat × SliceHeap :=
    match e.filteredEnvRef with
    | none => (none, sh)
    | some r => (some freshS, fun n => if n = freshS then sh r else sh n)
  ({ e with customVarsRef := mcopy.1, filteredEnvRef := scopy.1 }, mcopy.2, scopy.2)

/-- Assignment through one heap reference. -/
def heapSet (h : MapHeap) (r : Nat) (k v : String) : MapHeap :=
  fun n => if n = r then setVar (h n) k v else h n

/-- Write through an environment's custom-vars reference (the Go map
assignment on e.CustomVars); writing through a nil reference is not
exercised by the claims and leaves the heap unchanged. -/
def envSetCustomVar (h : MapHeap) (e : EnvironmentRef) (k v : String) : MapHeap :=
  match e.customVarsRef with
  | none => h
  | some r => heapSet h r k v

/-- Read through an environment's custom-vars reference. -/
def envReadCustomVar (h : MapHeap) (e : EnvironmentRef) (k : String) : Option String :=
  match e.customVarsRef with
  | none => none
  | some r => lookupVar (h r) k

/-- Runner environment of the aliasing scenario: a run with one custom
variable, its map stored at reference one and the filtered environment
snapshot at reference two. -/
def c3Env : EnvironmentRef :=
  { projectRoot := "/proj", workDir := "/work", artifactsDir := "/art", ticket := "T-1",
    customVarsRef := some 1, filteredEnvRef := some 2 }

/-- Heap of the aliasing scenario. -/
def c3Heap : MapHeap := fun n => if n = 1 then [("A", "1")] else []

/-- Slice heap of the aliasing scenario. -/
def c3SliceHeap : SliceHeap := fun n => if n = 2 then ["PATH=/bin"] else []

/-- C3: the claim says each parallel worker dispatches under a deep
copy whose custom-variable map and filtered-environment snapshot do
not alias the other worker's or the original's; in the source
runParallel copies the Environment struct shallowly, so both worker
environments carry the very same map and slice references as the
original (a write through one worker's map is read through the
other's), while the unused Clone method would have allocated a fresh
reference. -/
theorem runParallel_worker_envs_alias :
    (runParallelWorkerEnv c3Env 0).customVarsRef = c3Env.customVarsRef
    ∧ (runParallelWorkerEnv c3Env 1).customVarsRef = c3Env.customVarsRef
    ∧ (runParallelWorkerEnv c3Env 0).filteredEnvRef = c3Env.filteredEnvRef
    ∧ (runParallelWorkerEnv c3Env 1).filteredEnvRef = c3Env.filteredEnvRef
    ∧ envReadCustomVar (envSetCustomVar c3Heap (runParallelWorkerEnv c3Env 0) "A" "changed")
        (runParallelWorkerEnv c3Env 1) "A" = some "changed"
    ∧ (c3Env.Clone c3Heap c3SliceHeap 9 10).1.customVarsRef ≠ c3Env.customVarsRef
    ∧ envReadCustomVar (c3Env.Clone c3Heap c3SliceHeap 9 10).2.1
        (c3Env.Clone c3Heap c3SliceHeap 9 10).1 ("A") = some "1" := by
  refine ⟨rfl, rfl, rfl, rfl, by decide, by decide, by decide⟩

/-- The temporary sibling path used by the atomic writer. -/
def tmpPath (path : String) : String := path ++ ".tmp"

/-- Flags selecting which step of the atomic writer errors (at most the
first true flag in step order takes effect). -/
structure AtomicFailures where
  openFail : Bool := false
  writeFail : Bool := false
  syncFail : Bool := false
  closeFail : Bool := false
  renameFail : Bool := false

/-- No step of the atomic writer errors. -/
def noAtomicFailures : AtomicFailures := {}

/-- One durable-storage effect performed by the atomic writer. An
attempted operation that errors has no durable effect and is not
recorded. -/
inductive FsOp where
  | openTmp (tmp : String)
  | writeTmp (tmp : String) (data : String)
  | syncTmp (tmp : String)
  | closeTmp (tmp : String)
  | renameTmp (tmp : String) (path : String)
  | removeTmp (tmp : String)
deriving DecidableEq

/-- Function writeFileAtomic of internal/state/atomic.go: open the
temporary sibling with create and truncate, write the data, sync,
close, then rename over the target; on an error at any step after the
open, remove the temporary file and return the error. The result is
the ordered list of durable effects together with the error, if
any. -/
def writeFileAtomic (path data : String) (f : AtomicFailures) : List FsOp × Option String :=
  let tmp := tmpPath path
  if f.openFail then ([], some "open")
  else if f.writeFail then ([.openTmp tmp, .removeTmp tmp], some "write")
  else if f.syncFail then ([.openTmp tmp, .writeTmp tmp data, .removeTmp tmp], some "sync")
  else if f.closeFail then
    ([.openTmp tmp, .writeTmp tmp data, .syncTmp tmp, .removeTmp tmp], some "close")
  else if f.renameFail then
    ([.openTmp tmp, .writeTmp tmp data, .syncTmp tmp, .closeTmp tmp, .removeTmp tmp],
      some "rename")
  else
    ([.openTmp tmp, .writeTmp tmp data, .syncTmp tmp, .closeTmp tmp, .renameTmp tmp path],
      none)

/-- Durable file-system contents: a path maps to its contents when the
file exists. -/
abbrev Disk := String → Option String

/-- Effect of one durable operation on the disk. -/
def applyOp (d : Disk) : FsOp → Disk
  | .openTmp tmp => fun p => if p = tmp then some "" else d p
  | .writeTmp tmp data => fun p => if p = tmp then some data else d p
  | .syncTmp _ => d
  | .closeTmp _ => d
  | .renameTmp tmp path => fun p => if p = path then d tmp else if p = tmp then none else d p
  | .removeTmp tmp => fun p => if p = tmp then none else d p

/-- Effect of a sequence of durable operations on the disk. -/
def applyOps (d : Disk) : List FsOp → Disk
  | [] => d
  | op :: rest => applyOps (applyOp d op) rest

lemma tmpPath_ne (p : String) : p ≠ tmpPath p := by
  intro h
  have hlen : (tmpPath p).length = p.length + 4 := by
    simp [tmpPath, String.length_append]
    decide
  rw [← h] at hlen
  omega

/-- Whether one durable operation can change the contents stored at
the given path. -/
def touches (path : String) : FsOp → Prop
  | .openTmp t => t = path
  | .writeTmp t _ => t = path
  | .syncTmp _ => False
  | .closeTmp _ => False
  | .renameTmp t p2 => t = path ∨ p2 = path
  | .removeTmp t => t = path

lemma applyOp_untouched (d : Disk) (op : FsOp) (path : String) (h : ¬ touches path op) :
    applyOp d op path = d path := by
  cases op with
  | openTmp t =>
      simp only [touches] at h
      simp only [applyOp]
      rw [if_neg (fun hh : path = t => h hh.symm)]
  | writeTmp t data =>
      simp only [touches] at h
      simp only [applyOp]
      rw [if_neg (fun hh : path = t => h hh.symm)]
  | syncTmp t => rfl
  | closeTmp t => rfl
  | renameTmp t p2 =>
      simp only [touches] at h
      push_neg at h
      simp only [applyOp]
      rw [if_neg (fun hh : path = p2 => h.2 hh.symm),
        if_neg (fun hh : path = t => h.1 hh.symm)]
  | removeTmp t =>
      simp only [touches] at h
      simp only [applyOp]
      rw [if_neg (fun hh : path = t => h hh.symm)]

lemma applyOps_untouched (path : String) (ops : List FsOp)
    (h : ∀ op ∈ ops, ¬ touches path op) : ∀ d : Disk, applyOps d ops path = d path := by
  induction ops with
  | nil => intro d; rfl
  | cons op rest ih =>
      intro d
      rw [applyOps, ih (fun o ho => h o (by simp [ho]))]
      exact applyOp_untouched _ _ _ (h op (by simp))

lemma prefix_untouched (path : String) (L : List FsOp) (k : Nat) (d : Disk)
    (h : ∀ op ∈ L, ¬ touches path op) :
    applyOps d (L.take k) path = d path :=
  applyOps_untouched path _ (fun op hop => h op (List.take_subset _ _ hop)) d

/-- All-or-nothing behaviour of writeFileAtomic: after any prefix of
its durable effects (a crash at any point), the target path holds
either its old contents or the complete new data, never a truncated
intermediate. -/
lemma writeFileAtomic_old_or_new (path data : String) (f : AtomicFailures)
    (d : Disk) (k : Nat) :
    applyOps d (((writeFileAtomic path data f).1).take k) path = d path
    ∨ applyOps d (((writeFileAtomic path data f).1).take k) path = some data := by
  have hne : ¬ (path = tmpPath path) := tmpPath_ne path
  have hne2 : ¬ (tmpPath path = path) := fun hh => hne hh.symm
  by_cases ho : f.openFail
  · left
    simp [writeFileAtomic, ho, applyOps]
  by_cases hw : f.writeFail
  · left
    apply prefix_untouched
    intro op hop
    simp [writeFileAtomic, ho, hw] at hop
    rcases hop with rfl | rfl <;> simp [touches, hne2]
  by_cases hs : f.syncFail
  · left
    apply prefix_untouched
    intro op hop
    simp [writeFileAtomic, ho, hw, hs] at hop
    rcases hop with rfl | rfl | rfl <;> simp [touches, hne2]
  by_cases hc : f.closeFail
  · left
    apply prefix_untouched
    intro op hop
    simp [writeFileAtomic, ho, hw, hs, hc] at hop
    rcases hop with rfl | rfl | rfl | rfl <;> simp [touches, hne2]
  by_cases hr : f.renameFail
  · left
    apply prefix_untouched
    intro op hop
    simp [writeFileAtomic, ho, hw, hs, hc, hr] at hop
    rcases hop with rfl | rfl | rfl | rfl | rfl <;> simp [touches, hne2]
  · rcases k with _ | _ | _ | _ | _ | k
    · left; simp [writeFileAtomic, ho, hw, hs, hc, hr, applyOps]
    · left
      simp [writeFileAtomic, ho, hw, hs, hc, hr, applyOps, applyOp, hne,
        List.take_succ_cons, List.take_zero]
    · left
      simp [writeFileAtomic, ho, hw, hs, hc, hr, applyOps, applyOp, hne,
        List.take_succ_cons, List.take_zero]
    · left
      simp [writeFileAtomic, ho, hw, hs, hc, hr, applyOps, applyOp, hne,
        List.take_succ_cons, List.take_zero]
    · left
      simp [writeFileAtomic, ho, hw, hs, hc, hr, applyOps, applyOp, hne,
        List.take_succ_cons, List.take_zero]
    · right
      simp [writeFileAtomic, ho, hw, hs, hc, hr, applyOps, applyOp, hne,
        List.take_succ_cons, List.take_nil]

/-- Whether a persisted-file write goes through writeFileAtomic or
through a direct os.WriteFile call. -/
inductive WriteKind where
  | atomicW : WriteKind
  | directW : WriteKind
deriving DecidableEq

/-- One persisted-state file write: target path, serialized contents,
and the primitive used. -/
structure PersistWrite where
  path : String
  data : String
  kind : WriteKind

/-- Method Save of the run state (internal/state, state.go): marshals
and writes state.json through writeFileAtomic (serialization is
abstracted as the data argument). -/
def StateSaveWrite (artifactsDir data : String) : PersistWrite :=
  { path := artifactsDir ++ "/state.json", data := data, kind := .atomicW }

/-- The save step of the timing ledger (internal/state/timing.go):
timing.json written through writeFileAtomic. -/
def TimingSaveWrite (artifactsDir data : String) : PersistWrite :=
  { path := artifactsDir ++ "/timing.json", data := data, kind := .atomicW }

/-- Function SaveLoopCounts of internal/state/artifacts.go:
loop-counts.json written through writeFileAtomic. -/
def SaveLoopCountsWrite (artifactsDir data : String) : PersistWrite :=
  { path := artifactsDir ++ "/loop-counts.json", data := data, kind := .atomicW }

/-- Function WriteFeedback of internal/state/artifacts.go: the
feedback file of the failing phase written through writeFileAtomic. -/
def WriteFeedbackWrite (artifactsDir fromPhase content : String) : PersistWrite :=
  { path := artifactsDir ++ "/feedback/from-" ++ fromPhase ++ ".md",
    data := content, kind := .atomicW }

/-- The rendered-prompt save of RunAgent and RunAgentAttended
(internal/dispatch/agent.go): the prompt file is written with a plain
os.WriteFile call, not with writeFileAtomic. -/
def RunAgentPromptWrite (artifactsDir : String) (idx : Int) (rendered : String) : PersistWrite :=
  { path := PromptPath artifactsDir idx, data := rendered, kind := .directW }

/-- Counterexample for C4: the claim covers rendered prompts, but the
prompt write issued by the agent dispatcher is a direct write, not a
write through the atomic primitive. -/
theorem prompt_write_not_atomic :
    (RunAgentPromptWrite ("/art") 0 ("prompt text")).kind = WriteKind.directW
    ∧ (RunAgentPromptWrite ("/art") 0 ("prompt text")).kind ≠ WriteKind.atomicW := by
  exact ⟨rfl, by decide⟩

/-- C4 amended: run state, timing, loop counts and feedback are
written through writeFileAtomic, which opens the temporary sibling,
writes, syncs, closes and renames over the target, removes the
temporary file on any error after the open, and leaves the target
holding either its old or its complete new contents after any crash
prefix; rendered prompts, however, are written directly with
os.WriteFile. -/
theorem persisted_writes_atomic_except_prompts :
    (∀ dir data, (StateSaveWrite dir data).kind = WriteKind.atomicW)
    ∧ (∀ dir data, (TimingSaveWrite dir data).kind = WriteKind.atomicW)
    ∧ (∀ dir data, (SaveLoopCountsWrite dir data).kind = WriteKind.atomicW)
    ∧ (∀ dir ph content, (WriteFeedbackWrite dir ph content).kind = WriteKind.atomicW)
    ∧ (∀ dir idx rendered, (RunAgentPromptWrite dir idx rendered).kind = WriteKind.directW)
    ∧ (∀ path data, writeFileAtomic path data noAtomicFailures
        = ([FsOp.openTmp (tmpPath path), FsOp.writeTmp (tmpPath path) data,
            FsOp.syncTmp (tmpPath path), FsOp.closeTmp (tmpPath path),
            FsOp.renameTmp (tmpPath path) path], none))
    ∧ (∀ path data f, (writeFileAtomic path data f).2 ≠ none →
        f.openFail = true ∨ FsOp.removeTmp (tmpPath path) ∈ (writeFileAtomic path data f).1)
    ∧ (∀ path data f (d : Disk) (k : Nat),
        applyOps d (((writeFileAtomic path data f).1).take k) path = d path
        ∨ applyOps d (((writeFileAtomic path data f).1).take k) path = some data) := by
  refine ⟨fun _ _ => rfl, fun _ _ => rfl, fun _ _ => rfl, fun _ _ _ => rfl,
    fun _ _ _ => rfl, fun _ _ => rfl, ?_, writeFileAtomic_old_or_new⟩
  intro path data f herr
  by_cases ho : f.openFail
  · exact Or.inl ho
  by_cases hw : f.writeFail
  · right; simp [writeFileAtomic, ho, hw]
  by_cases hs : f.syncFail
  · right; simp [writeFileAtomic, ho, hw, hs]
  by_cases hc : f.closeFail
  · right; simp [writeFileAtomic, ho, hw, hs, hc]
  by_cases hr : f.renameFail
  · right; simp [writeFileAtomic, ho, hw, hs, hc, hr]
  · exfalso
    apply herr
    simp [writeFileAtomic, ho, hw, hs, hc, hr]

/-- Witness for C4 amended: the error-cleanup conjunct applied at a
concrete failing write, whose temporary file removal is evaluated. -/
theorem persisted_writes_atomic_except_prompts_witness :
    AtomicFailures.openFail { writeFail := true } = true
      ∨ FsOp.removeTmp (tmpPath ("/art/state.json"))
          ∈ (writeFileAtomic ("/art/state.json") ("contents") { writeFail := true }).1 :=
  persisted_writes_atomic_except_prompts.2.2.2.2.2.2.1 "/art/state.json" "contents"
    { writeFail := true } (by decide)

/-- Run state of internal/state (struct State). -/
structure GoState where
  phaseIndex : Int := 0
  ticket : String := ""
  status : String := ""
deriving DecidableEq

/-- Status constant of internal/state. -/
def StatusRunning : String := "running"

/-- Status constant of internal/state. -/
def StatusCompleted : String := "completed"

/-- Status constant of internal/state. -/
def StatusFailed : String := "failed"

/-- Status constant of internal/state. -/
def StatusInterrupted : String := "interrupted"

/-- Outcome of the os.ReadFile call on state.json. -/
inductive ReadOutcome where
  | notExist
  | readErr (msg : String)
  | okData (data : String)

/-- Function Load of internal/state (state.go): a missing state.json
yields a fresh state (the struct literal sets only the running status,
so the phase index is the zero value and the ticket is empty); any
other read error propagates; otherwise the contents are decoded by
json.Unmarshal, modelled by the decode argument, and a decode error
propagates. -/
def StateLoad (read : ReadOutcome) (decode : String → Except String GoState) :
    Except String GoState :=
  match read with
  | .notExist => .ok { phaseIndex := 0, ticket := "", status := StatusRunning }
  | .readErr msg => .error msg
  | .okData data =>
      match decode data with
      | .error e => .error e
      | .ok s => .ok s

/-- C10: when no state.json exists, Load returns a fresh state with
phase index zero, empty ticket and running status instead of an error,
so a first run starts at phase zero; a read error propagates, and a
JSON-decode failure of an existing file propagates as an error. -/
theorem StateLoad_fresh_on_missing :
    (∀ decode, StateLoad ReadOutcome.notExist decode
        = Except.ok { phaseIndex := 0, ticket := "", status := StatusRunning })
    ∧ (∀ msg decode, StateLoad (ReadOutcome.readErr msg) decode = Except.error msg)
    ∧ (∀ data decode e, decode data = Except.error e →
        StateLoad (ReadOutcome.okData data) decode = Except.error e) := by
  refine ⟨fun _ => rfl, fun _ _ => rfl, ?_⟩
  intro data decode e h
  simp [StateLoad, h]

/-- Witness for C10: the fresh-state and decode-failure cases applied
at concrete inputs. -/
theorem StateLoad_fresh_on_missing_witness :
    StateLoad ReadOutcome.notExist (fun _ => Except.error "bad json")
        = Except.ok { phaseIndex := 0, ticket := "", status := StatusRunning }
    ∧ StateLoad (ReadOutcome.okData ("not json")) (fun _ => Except.error "bad json")
        = Except.error "bad json" :=
  ⟨StateLoad_fresh_on_missing.1 (fun _ => Except.error "bad json"),
    StateLoad_fresh_on_missing.2.2 "not json" (fun _ => Except.error "bad json")
      "bad json" rfl⟩

/-- Permission denial record extracted from the result payload. -/
structure PermissionDenial where
  tool : String
  input : String
deriving DecidableEq

/-- Struct StreamResult of the stream processor. The float64 cost is
modelled as a rational number; none of the claims depend on its
arithmetic. -/
structure StreamResult where
  text : String := ""
  permissionDenials : List PermissionDenial := []
  costUSD : Rat := 0
  sessionID : String := ""

/-- Struct deltaBlock: the delta of a content_block_delta event. -/
structure DeltaBlock where
  dtype : String := ""
  text : String := ""
  partialJSON : String := ""

/-- Struct contentBlock: the block of a content_block_start event. -/
structure ContentBlockJ where
  ctype : String := ""
  text : String := ""
  name : String := ""

/-- Struct nestedEvent: the inner event of a stream_event line. -/
structure NestedEvent where
  ntype : String := ""
  contentBlock : Option ContentBlockJ := none
  delta : Option DeltaBlock := none

/-- Struct resultPayload: the nested payload of the result event. -/
structure ResultPayloadJ where
  permissionDenials : List PermissionDenial := []
  costUSD : Rat := 0
  sessionID : String := ""

/-- A raw JSON field value as json.Unmarshal sees it: it either parses
or fails. -/
inductive RawParse (α : Type) where
  | failed : RawParse α
  | parsed (a : α) : RawParse α

/-- Struct streamEvent: the top-level stream-json event. The event and
result RawMessage fields are either absent (none), present but
unparseable, or parsed. -/
structure StreamEventJ where
  etype : String := ""
  event : Option (RawParse NestedEvent) := none
  sessionID : String := ""
  result : Option (RawParse ResultPayloadJ) := none
  costUSD : Rat := 0
  isError : Bool := false

/-- One line delivered by the scanner: empty (skipped), JSON that
fails to parse (skipped silently), or a parsed event. -/
inductive ScanLine where
  | emptyLine
  | malformed
  | parsed (e : StreamEventJ)

/-- Struct streamState: the tool-use accumulator. -/
structure ToolState where
  toolName : String := ""
  inputBuf : String := ""

/-- Function handleStreamEvent of the stream processor: text deltas
are appended to the assistant text buffer (and tee-written to display
and log), incremental JSON deltas feed the tool accumulator, block
start and stop manage the accumulator; a missing or unparseable inner
payload does nothing. Returns the updated buffer and accumulator. -/
def handleStreamEvent (e : StreamEventJ) (buf : String) (ts : ToolState) :
    String × ToolState :=
  match e.event with
  | none => (buf, ts)
  | some RawParse.failed => (buf, ts)
  | some (RawParse.parsed ne) =>
      if ne.ntype = "content_block_start" then
        match ne.contentBlock with
        | some cb =>
            if cb.ctype = "tool_use" then (buf, { toolName := cb.name, inputBuf := "" })
            else (buf, ts)
        | none => (buf, ts)
      else if ne.ntype = "content_block_delta" then
        match ne.delta with
        | none => (buf, ts)
        | some dl =>
            if dl.dtype = "text_delta" then (buf ++ dl.text, ts)
            else if dl.dtype = "input_json_delta" then
              (buf, { ts with inputBuf := ts.inputBuf ++ dl.partialJSON })
            else (buf, ts)
      else if ne.ntype = "content_block_stop" then
        if ts.toolName ≠ "" then (buf, { toolName := "", inputBuf := "" }) else (buf, ts)
      else (buf, ts)

/-- Function handleResultEvent of the stream processor: a parsed
nested payload supplies cost, session id and the permission denials;
otherwise a positive top-level cost and a non-empty top-level session
id are taken as fallback. -/
def handleResultEvent (e : StreamEventJ) (res : StreamResult) : StreamResult :=
  match e.result with
  | some (RawParse.parsed payload) =>
      { res with
          costUSD := payload.costUSD
          sessionID := payload.sessionID
          permissionDenials := res.permissionDenials ++ payload.permissionDenials }
  | _ =>
      let res1 := if 0 < e.costUSD then { res with costUSD := e.costUSD } else res
      if e.sessionID ≠ "" then { res1 with sessionID := e.sessionID } else res1

/-- One iteration body of the processStream scan loop, after the
cancellation check: empty and malformed lines are skipped, stream
events update the text buffer and tool accumulator, assistant and user
events have no observable effect on the result, and the result event
updates the stream result. -/
def stepLine : (String × ToolState × StreamResult) → ScanLine → (String × ToolState × StreamResult)
  | s, ScanLine.emptyLine => s
  | s, ScanLine.malformed => s
  | (buf, ts, res), ScanLine.parsed e =>
      if e.etype = "stream_event" then
        ((handleStreamEvent e buf ts).1, (handleStreamEvent e buf ts).2, res)
      else if e.etype = "result" then (buf, ts, handleResultEvent e res)
      else (buf, ts, res)

/-- Scan loop of processStream: before handling each scanned line the
context is polled (the n-th poll for the n-th line); on cancellation
the function returns the result value as it stands, whose text field
has not yet been assigned from the buffer, together with the
cancellation error. When the input is exhausted the accumulated buffer
is stored into the result's text field. -/
def processLoop (ctx : Nat → Bool) :
    List ScanLine → Nat → (String × ToolState × StreamResult) → StreamResult × Option String
  | [], _, s => ({ s.2.2 with text := s.1 }, none)
  | l :: rest, n, s =>
      if ctx n then (s.2.2, some "context canceled")
      else processLoop ctx rest (n + 1) (stepLine s l)

/-- Function processStream of the stream processor, over the scanned
line list and the context-cancellation oracle (true at n means the
n-th poll of ctx.Err() observes cancellation). -/
def processStream (lines : List ScanLine) (ctx : Nat → Bool) : StreamResult × Option String :=
  processLoop ctx lines 0 ("", {}, {})

/-- The assistant text accumulated by processing the given lines to
completion without cancellation. -/
def assistantTextOf (lines : List ScanLine) : String :=
  (processStream lines (fun _ => false)).1.text

/-- A stream line carrying one assistant text delta. -/
def textDeltaLine (t : String) : ScanLine :=
  ScanLine.parsed
    { etype := "stream_event",
      event := some (RawParse.parsed
        { ntype := "content_block_delta",
          delta := some { dtype := "text_delta", text := t } }) }

/-- Input lines of the cancellation scenario. -/
def c5Lines : List ScanLine := [textDeltaLine ("Hello"), textDeltaLine (" world")]

/-- Cancellation arriving after the first line has been processed. -/
def c5Ctx : Nat → Bool := fun n => decide (1 ≤ n)

/-- Counterexample for C5: when the context is cancelled after one
text delta has been processed, processStream returns the cancellation
error, but the captured output of the returned partial result is
empty, not the accumulated assistant text of the processed events
(the text field is only assigned from the buffer on normal loop
exit). -/
theorem processStream_cancel_drops_text :
    (processStream c5Lines c5Ctx).2 = some "context canceled"
    ∧ (processStream c5Lines c5Ctx).1.text = ""
    ∧ assistantTextOf (c5Lines.take 1) = "Hello"
    ∧ (processStream c5Lines c5Ctx).1.text ≠ assistantTextOf (c5Lines.take 1) := by
  refine ⟨rfl, rfl, rfl, by decide⟩

lemma handleResultEvent_text (e : StreamEventJ) (res : StreamResult) :
    (handleResultEvent e res).text = res.text := by
  unfold handleResultEvent
  match e.result with
  | some (RawParse.parsed payload) => rfl
  | some RawParse.failed =>
      by_cases h1 : 0 < e.costUSD <;> by_cases h2 : e.sessionID ≠ "" <;> simp [h1, h2]
  | none =>
      by_cases h1 : 0 < e.costUSD <;> by_cases h2 : e.sessionID ≠ "" <;> simp [h1, h2]

lemma stepLine_res_text (s : String × ToolState × StreamResult) (l : ScanLine) :
    ((stepLine s l).2.2).text = (s.2.2).text := by
  match l with
  | ScanLine.emptyLine => rfl
  | ScanLine.malformed => rfl
  | ScanLine.parsed e =>
      obtain ⟨buf, ts, res⟩ := s
      unfold stepLine
      by_cases h1 : e.etype = "stream_event"
      · simp [h1]
      · by_cases h2 : e.etype = "result" <;> simp [h1, h2, handleResultEvent_text]

lemma foldl_stepLine_res_text (lines : List ScanLine) (s : String × ToolState × StreamResult) :
    ((lines.foldl stepLine s).2.2).text = (s.2.2).text := by
  induction lines generalizing s with
  | nil => rfl
  | cons l rest ih => rw [List.foldl_cons, ih, stepLine_res_text]

lemma processLoop_cancel (ctx : Nat → Bool) (pre post : List ScanLine) :
    ∀ (n : Nat) (s : String × ToolState × StreamResult),
    (∀ i, i < pre.length → ctx (n + i) = false) → ctx (n + pre.length) = true → post ≠ [] →
    processLoop ctx (pre ++ post) n s
      = ((pre.foldl stepLine s).2.2, some "context canceled") := by
  induction pre with
  | nil =>
      intro n s hfalse htrue hpost
      match post with
      | [] => exact absurd rfl hpost
      | l :: rest =>
          simp only [List.nil_append, List.foldl_nil, processLoop]
          rw [if_pos (by simpa using htrue)]
  | cons p pre ih =>
      intro n s hfalse htrue hpost
      simp only [List.cons_append, processLoop, List.foldl_cons]
      have h0 : ctx n = false := by simpa using hfalse 0 (by simp)
      rw [if_neg (by simp [h0])]
      exact ih (n + 1) (stepLine s p)
        (fun i hi => by simpa [Nat.add_assoc, Nat.add_comm 1 i] using hfalse (i + 1) (by simpa using hi))
        (by simpa [Nat.add_assoc, Nat.add_comm 1 pre.length] using htrue) hpost

/-- C5 amended: cancellation while scanning returns the cancellation
error together with the result accumulated from the already-processed
events (permission denials, cost, session id), but the captured-output
text of that partial result is empty: the accumulated assistant text
is assigned to the result only on normal loop exit and is dropped on
cancellation. -/
theorem processStream_cancel_partial :
    ∀ (pre post : List ScanLine) (ctx : Nat → Bool),
    (∀ i, i < pre.length → ctx i = false) → ctx pre.length = true → post ≠ [] →
    processStream (pre ++ post) ctx
        = ((pre.foldl stepLine ("", {}, {})).2.2, some "context canceled")
    ∧ (processStream (pre ++ post) ctx).1.text = "" := by
  intro pre post ctx hfalse htrue hpost
  have h := processLoop_cancel ctx pre post 0 ("", {}, {})
    (fun i hi => by simpa using hfalse i hi) (by simpa using htrue) hpost
  refine ⟨h, ?_⟩
  rw [processStream, h]
  exact foldl_stepLine_res_text pre ("", {}, {})

/-- Witness for C5 amended: the theorem applied to the concrete
cancellation scenario, with the hypotheses discharged by evaluation. -/
theorem processStream_cancel_partial_witness :
    processStream ([textDeltaLine ("Hello")] ++ [textDeltaLine (" world")]) c5Ctx
        = (([textDeltaLine ("Hello")].foldl stepLine ("", {}, {})).2.2, some "context canceled")
    ∧ (processStream ([textDeltaLine ("Hello")] ++ [textDeltaLine (" world")]) c5Ctx).1.text = "" :=
  processStream_cancel_partial [textDeltaLine ("Hello")] [textDeltaLine (" world")] c5Ctx
    (by decide) (by decide) (List.cons_ne_nil _ _)

/-- Lookup in a Go map from strings to ints; a missing key reads as
zero, as in Go. -/
def lookupCount : List (String × Int) → String → Int
  | [], _ => 0
  | (k, v) :: rest, key => if k = key then v else lookupCount rest key

/-- Assignment in a Go map from strings to ints. -/
def setCount : List (String × Int) → String → Int → List (String × Int)
  | [], key, val => [(key, val)]
  | (k, v) :: rest, key, val =>
      if k = key then (k, val) :: rest else (k, v) :: setCount rest key val

/-- Function CheckOutputs of internal/state/artifacts.go: the declared
outputs that are missing from the artifacts root, in declaration
order. The artifacts root is modelled as the list of file names
present in it. -/
def CheckOutputs (fs : List String) (outputs : List String) : List String :=
  outputs.filter (fun o => !(fs.contains o))

/-- The directive prompt of the output-validation re-prompt in
Runner.Run: the percent-q formatting of the joined path is modelled as
surrounding double quotes, and filepath.Join as slash concatenation. -/
def directivePrompt (artifactsDir m : String) : String :=
  "You did not produce the expected artifact at \"" ++ artifactsDir ++ "/" ++ m
    ++ "\". Please produce it now."

/-- One persisted write issued by the runner (the serialized file
contents are abstracted to the written value). -/
inductive WriteEvt where
  | wState (s : GoState)
  | wLoopCounts (m : List (String × Int))
  | wFeedback (phase : String) (content : String)
  | wTiming
deriving DecidableEq

/-- One output-validation re-prompt turn issued through
RunAgentWithPrompt: the phase, the supplied prompt, and whether the
log is opened in append mode (RunAgentWithPrompt opens the phase log
with O_APPEND). -/
structure TurnEvt where
  phaseName : String
  prompt : String
  appendLog : Bool
deriving DecidableEq

/-- Oracles for the effects the runner observes: successive polls of
the outer context, successive condition evaluations, the result and
error of each dispatch in dispatch order, the artifact files each
dispatch and each re-prompt turn creates, and the arrival order at
each parallel barrier. -/
structure World where
  ctxErr : Nat → Bool
  condOk : Nat → Bool
  dispatchExit : Nat → Option (Int × String)
  dispatchErr : Nat → Option String
  dispatchCreates : Nat → List String
  turnCreates : Nat → List String
  parallelFirstIsLower : Nat → Bool

/-- Runner state threaded through the loop: the run state, the
loop-count table, the artifact file set, the artifacts directory, the
oracle cursors, the trace of persisted writes, and the trace of
re-prompt turns. Loading of the saved state, loop counts and timing
before the loop is modelled by the initial values; persistence calls
are modelled as always succeeding (the runner treats their errors as
warnings or separate terminal errors that no claim exercises). -/
structure RunSt where
  st : GoState
  loopCounts : List (String × Int) := []
  fs : List String := []
  artifactsDir : String := "/art"
  ctxN : Nat := 0
  condN : Nat := 0
  dispN : Nat := 0
  turnN : Nat := 0
  parN : Nat := 0
  writes : List WriteEvt := []
  turnsLog : List TurnEvt := []

/-- Method failAndHint of the runner: set the failure status, save the
state, flush the timing ledger, print the resume hint. -/
def failAndHint (status : String) (s : RunSt) : RunSt :=
  let st2 : GoState := { s.st with status := status }
  { s with st := st2, writes := s.writes ++ [WriteEvt.wState st2, WriteEvt.wTiming] }

/-- Result of one runner loop iteration: continue looping, or return
from Run with an error (some message) or success (none). -/
inductive IterRes where
  | continueRun (s : RunSt)
  | stopRun (outcome : Option String) (s : RunSt)

/-- The on-failure block of Runner.Run (the body behind the check that
the phase has an on-fail policy): increment the phase's loop count; if
the new count exceeds the policy's max, fail the run terminally;
otherwise persist the updated loop-count table, write the feedback
file (the captured output, or the error message when the output is
empty), resolve the goto target (terminal failure when unknown),
rewrite the phase index to the target and persist the state. -/
def handleOnFail (cfg : Config) (phase : Phase) (pol : OnFail) (errMsg : String)
    (output : String) (s : RunSt) : IterRes :=
  let count := lookupCount s.loopCounts phase.name + 1
  if pol.max < count then
    IterRes.stopRun (some "phase exceeded max retries") (failAndHint StatusFailed s)
  else
    let counts2 := setCount s.loopCounts phase.name count
    let s1 : RunSt :=
      { s with loopCounts := counts2, writes := s.writes ++ [WriteEvt.wLoopCounts counts2] }
    let fb := if output = "" then errMsg else output
    let s2 : RunSt := { s1 with writes := s1.writes ++ [WriteEvt.wFeedback phase.name fb] }
    let gotoIdx := cfg.PhaseIndex pol.goto
    if gotoIdx < 0 then
      IterRes.stopRun (some "on-fail goto not found") (failAndHint StatusFailed s2)
    else
      let st2 : GoState := { s2.st with phaseIndex := gotoIdx }
      IterRes.continueRun { s2 with st := st2, writes := s2.writes ++ [WriteEvt.wState st2] }

/-- The re-prompt loop of the output-validation block in Runner.Run:
one RunAgentWithPrompt turn per missing file, in enumeration order,
each with the directive prompt naming that file and appending to the
existing log; an error of the turn is only warned about. Each turn may
create files in the artifacts root (the turn oracle). -/
def issueReprompts (w : World) (phase : Phase) : List String → RunSt → RunSt
  | [], s => s
  | m :: rest, s =>
      let turn : TurnEvt :=
        { phaseName := phase.name, prompt := directivePrompt s.artifactsDir m,
          appendLog := true }
      issueReprompts w phase rest
        { s with turnsLog := s.turnsLog ++ [turn],
                 fs := s.fs ++ w.turnCreates s.turnN, turnN := s.turnN + 1 }

/-- Result of the output-validation block: pass on to phase
completion, or fail the phase. -/
inductive OutputsRes where
  | okOut (s : RunSt)
  | failOut (err : String) (s : RunSt)

/-- The output-validation block of Runner.Run: with declared outputs
present, enumerate the missing files; for an agent phase with missing
files, issue one re-prompt turn per missing file and re-scan; if
outputs remain missing (or are missing for a non-agent phase, which
never re-prompts), the phase fails terminally. -/
def checkOutputsStep (w : World) (phase : Phase) (s : RunSt) : OutputsRes :=
  if phase.outputs.isEmpty then OutputsRes.okOut s
  else
    let missing := CheckOutputs s.fs phase.outputs
    let reprompt : Bool := !missing.isEmpty && phase.ptype == "agent"
    let s1 := if reprompt then issueReprompts w phase missing s else s
    let missing2 := if reprompt then CheckOutputs s1.fs phase.outputs else missing
    if !missing2.isEmpty then OutputsRes.failOut "missing outputs" (failAndHint StatusFailed s1)
    else OutputsRes.okOut s1

/-- Method runParallel of the runner: dispatch the two phases (the
lower-indexed worker consumes the earlier dispatch cursor), collect
both results in barrier arrival order, fail the pair when either
fails (interrupted instead when the parent context is cancelled),
validate declared outputs of both without re-prompting, then advance
past the later index and persist. The loop-count table is passed in
the source but never used. -/
def runParallelStep (w : World) (cfg : Config) (idx1 idx2 : Int) (s : RunSt) : IterRes :=
  let phase1 := cfg.phases.getD idx1.toNat {}
  let phase2 := cfg.phases.getD idx2.toNat {}
  let exit1 := w.dispatchExit s.dispN
  let err1 := w.dispatchErr s.dispN
  let exit2 := w.dispatchExit (s.dispN + 1)
  let err2 := w.dispatchErr (s.dispN + 1)
  let s1 : RunSt :=
    { s with dispN := s.dispN + 2,
             fs := s.fs ++ w.dispatchCreates s.dispN ++ w.dispatchCreates (s.dispN + 1),
             parN := s.parN + 1 }
  let fail1 : Bool :=
    err1.isSome || (match exit1 with | some (code, _) => code != 0 | none => false)
  let fail2 : Bool :=
    err2.isSome || (match exit2 with | some (code, _) => code != 0 | none => false)
  let someFailed : Bool :=
    if w.parallelFirstIsLower s.parN then fail1 || fail2 else fail2 || fail1
  if someFailed then
    let s2 : RunSt := { s1 with ctxN := s1.ctxN + 1 }
    if w.ctxErr s1.ctxN then
      IterRes.stopRun (some "context error") (failAndHint StatusInterrupted s2)
    else IterRes.stopRun (some "parallel phase failed") (failAndHint StatusFailed s2)
  else
    let missing1 := if phase1.outputs = [] then [] else CheckOutputs s1.fs phase1.outputs
    if missing1 ≠ [] then
      IterRes.stopRun (some "missing outputs") (failAndHint StatusFailed s1)
    else
      let missing2 := if phase2.outputs = [] then [] else CheckOutputs s1.fs phase2.outputs
      if missing2 ≠ [] then
        IterRes.stopRun (some "missing outputs") (failAndHint StatusFailed s1)
      else
        let nextIdx := if idx1 < idx2 then idx2 + 1 else idx1 + 1
        let st2 : GoState := { s1.st with phaseIndex := nextIdx }
        IterRes.continueRun
          { s1 with st := st2,
                    writes := s1.writes ++ [WriteEvt.wState st2, WriteEvt.wTiming] }

/-- One iteration of the Runner.Run loop (or its completion epilogue
when the phase index has reached the phase count): the cancellation
check, condition evaluation with skip, parallel handoff, dispatch, the
post-dispatch cancellation check, failure classification with the
on-failure protocol, output validation, and the completion bookkeeping
(advance, running status, persist). A negative loaded phase index
would make the Go slice access panic. The condition cursor advances
every iteration so that each condition evaluation reads a fresh oracle
index; the oracle is consulted only when the phase has a condition. -/
def runIter (w : World) (cfg : Config) (s : RunSt) : IterRes :=
  let total : Int := (cfg.phases.length : Int)
  if s.st.phaseIndex < total then
    if s.st.phaseIndex < 0 then IterRes.stopRun (some "panic: negative phase index") s
    else
      let phase := cfg.phases.getD s.st.phaseIndex.toNat {}
      let s0 : RunSt := { s with ctxN := s.ctxN + 1 }
      if w.ctxErr s.ctxN then
        IterRes.stopRun (some "context error") (failAndHint StatusInterrupted s0)
      else
        let condSkip : Bool := phase.condition != "" && !(w.condOk s0.condN)
        let s1 : RunSt := { s0 with condN := s0.condN + 1 }
        if condSkip then
          let st2 : GoState := { s1.st with phaseIndex := s1.st.phaseIndex + 1 }
          IterRes.continueRun { s1 with st := st2, writes := s1.writes ++ [WriteEvt.wState st2] }
        else
          let partnerIdx := cfg.PhaseIndex phase.parallelWith
          if phase.parallelWith ≠ "" ∧ partnerIdx < 0 then
            IterRes.stopRun (some "parallel-with not found") (failAndHint StatusFailed s1)
          else if phase.parallelWith ≠ "" ∧ s1.st.phaseIndex < partnerIdx then
            runParallelStep w cfg s1.st.phaseIndex partnerIdx s1
          else
            let rexit := w.dispatchExit s1.dispN
            let rerr := w.dispatchErr s1.dispN
            let s2 : RunSt :=
              { s1 with dispN := s1.dispN + 1, fs := s1.fs ++ w.dispatchCreates s1.dispN }
            let s3 : RunSt := { s2 with ctxN := s2.ctxN + 1 }
            if w.ctxErr s2.ctxN then
              IterRes.stopRun (some "context error") (failAndHint StatusInterrupted s3)
            else
              let dispatchFailed : Bool :=
                rerr.isSome || (match rexit with | some (code, _) => code != 0 | none => false)
              if dispatchFailed then
                let errMsg := match rerr with | some m => m | none => "non-zero exit"
                let output := match rexit with | some (_, out) => out | none => ""
                match phase.onFail with
                | some pol => handleOnFail cfg phase pol errMsg output s3
                | none => IterRes.stopRun (some "phase failed") (failAndHint StatusFailed s3)
              else
                match checkOutputsStep w phase s3 with
                | OutputsRes.failOut err s4 => IterRes.stopRun (some err) s4
                | OutputsRes.okOut s4 =>
                    let st2 : GoState :=
                      { s4.st with phaseIndex := s4.st.phaseIndex + 1, status := StatusRunning }
                    IterRes.continueRun
                      { s4 with st := st2,
                                writes := s4.writes ++ [WriteEvt.wTiming, WriteEvt.wState st2] }
  else
    let st2 : GoState := { s.st with status := StatusCompleted }
    IterRes.stopRun none
      { s with st := st2, writes := s.writes ++ [WriteEvt.wState st2, WriteEvt.wTiming] }

/-- The Runner.Run loop: iterate runIter until it returns, with fuel
bounding the number of iterations (the Go loop is unbounded; every
claim is stated for a sufficient fuel or is fuel-independent). -/
def runLoop (w : World) (cfg : Config) : Nat → RunSt → Option String × RunSt
  | 0, s => (some "out of fuel", s)
  | fuel + 1, s =>
      match runIter w cfg s with
      | IterRes.stopRun out s2 => (out, s2)
      | IterRes.continueRun s2 => runLoop w cfg fuel s2

lemma issueReprompts_spec (w : World) (phase : Phase) :
    ∀ (ms : List String) (s : RunSt),
    (issueReprompts w phase ms s).turnsLog
        = s.turnsLog ++ ms.map (fun m =>
            { phaseName := phase.name, prompt := directivePrompt s.artifactsDir m,
              appendLog := true : TurnEvt })
    ∧ (issueReprompts w phase ms s).loopCounts = s.loopCounts
    ∧ (issueReprompts w phase ms s).writes = s.writes
    ∧ (issueReprompts w phase ms s).st = s.st
    ∧ (issueReprompts w phase ms s).artifactsDir = s.artifactsDir := by
  intro ms
  induction ms with
  | nil => intro s; simp [issueReprompts]
  | cons m rest ih =>
      intro s
      obtain ⟨ht, hc, hw, hst, ha⟩ :=
        ih { s with turnsLog := s.turnsLog ++ [⟨phase.name, directivePrompt s.artifactsDir m, true⟩], fs := s.fs ++ w.turnCreates s.turnN, turnN := s.turnN + 1 }
      refine ⟨?_, ?_, ?_, ?_, ?_⟩ <;>
        simp_all [issueReprompts]

/-- C2: after a successful agent phase with a non-empty declared
output list, the engine enumerates the missing files and issues
exactly one re-prompt turn per missing entry, in order, each carrying
the directive prompt naming that file and appending to the existing
log; it then re-scans, and the phase is classified failed (status
failed) exactly when some declared output is still missing. A phase
whose outputs are all present passes without any turn, and a non-agent
phase never re-prompts: its missing outputs fail it immediately. -/
theorem outputs_validation_retry_protocol :
    (∀ (w : World) (phase : Phase) (s : RunSt),
        phase.ptype = "agent" →
        phase.outputs ≠ [] →
        CheckOutputs s.fs phase.outputs ≠ [] →
        (issueReprompts w phase (CheckOutputs s.fs phase.outputs) s).turnsLog
            = s.turnsLog ++ (CheckOutputs s.fs phase.outputs).map (fun m =>
                { phaseName := phase.name, prompt := directivePrompt s.artifactsDir m,
                  appendLog := true : TurnEvt })
          ∧ checkOutputsStep w phase s
              = (if CheckOutputs (issueReprompts w phase (CheckOutputs s.fs phase.outputs) s).fs
                      phase.outputs ≠ []
                 then OutputsRes.failOut "missing outputs"
                    (failAndHint StatusFailed
                      (issueReprompts w phase (CheckOutputs s.fs phase.outputs) s))
                 else OutputsRes.okOut
                    (issueReprompts w phase (CheckOutputs s.fs phase.outputs) s)))
    ∧ (∀ (w : World) (phase : Phase) (s : RunSt),
        phase.outputs ≠ [] →
        CheckOutputs s.fs phase.outputs = [] →
        checkOutputsStep w phase s = OutputsRes.okOut s)
    ∧ (∀ (w : World) (phase : Phase) (s : RunSt),
        phase.ptype ≠ "agent" →
        phase.outputs ≠ [] →
        checkOutputsStep w phase s
            = (if CheckOutputs s.fs phase.outputs ≠ []
               then OutputsRes.failOut "missing outputs" (failAndHint StatusFailed s)
               else OutputsRes.okOut s)
          ∧ (failAndHint StatusFailed s).turnsLog = s.turnsLog)
    ∧ (∀ s, (failAndHint StatusFailed s).st.status = StatusFailed) := by
  refine ⟨?_, ?_, ?_, fun s => rfl⟩
  · intro w phase s hagent houts hmiss
    refine ⟨(issueReprompts_spec w phase _ s).1, ?_⟩
    have hb : (!(CheckOutputs s.fs phase.outputs).isEmpty && (phase.ptype == "agent")) = true := by
      simp [hmiss, hagent]
    by_cases hm2 :
        CheckOutputs (issueReprompts w phase (CheckOutputs s.fs phase.outputs) s).fs
          phase.outputs = [] <;>
      simp [checkOutputsStep, houts, hb, hm2]
  · intro w phase s houts hmiss
    simp [checkOutputsStep, houts, hmiss]
  · intro w phase s hagent houts
    refine ⟨?_, rfl⟩
    have hb : (phase.ptype == "agent") = false := by
      simp [hagent]
    by_cases hm : CheckOutputs s.fs phase.outputs = [] <;>
      simp [checkOutputsStep, houts, hb, hm]

/-- World of the re-prompt scenario: the single re-prompt turn creates
the missing artifact. -/
def c2World : World :=
  { ctxErr := fun _ => false
  , condOk := fun _ => true
  , dispatchExit := fun _ => some (0, "ok")
  , dispatchErr := fun _ => none
  , dispatchCreates := fun _ => []
  , turnCreates := fun _ => ["plan.md"]
  , parallelFirstIsLower := fun _ => true }

/-- Agent phase declaring one output. -/
def c2Phase : Phase :=
  { name := "plan", ptype := "agent", prompt := "p.md", model := "opus",
    outputs := ["plan.md"] }

/-- Runner state in which the declared output is missing. -/
def c2St : RunSt := { st := { phaseIndex := 0, ticket := "T-1", status := "running" } }

/-- Witness for C2: the agent re-prompt case applied at a concrete
phase whose single declared output is missing and produced by the
re-prompt turn. -/
theorem outputs_validation_retry_protocol_witness :
    (issueReprompts c2World c2Phase (CheckOutputs c2St.fs c2Phase.outputs) c2St).turnsLog
        = c2St.turnsLog ++ (CheckOutputs c2St.fs c2Phase.outputs).map (fun m =>
            { phaseName := c2Phase.name, prompt := directivePrompt c2St.artifactsDir m,
              appendLog := true : TurnEvt })
    ∧ checkOutputsStep c2World c2Phase c2St
        = (if CheckOutputs
                (issueReprompts c2World c2Phase (CheckOutputs c2St.fs c2Phase.outputs) c2St).fs
                c2Phase.outputs ≠ []
           then OutputsRes.failOut "missing outputs"
              (failAndHint StatusFailed
                (issueReprompts c2World c2Phase (CheckOutputs c2St.fs c2Phase.outputs) c2St))
           else OutputsRes.okOut
              (issueReprompts c2World c2Phase (CheckOutputs c2St.fs c2Phase.outputs) c2St)) :=
  outputs_validation_retry_protocol.1 c2World c2Phase c2St rfl
    (by decide) (by decide)

/-- The runner state carried by an iteration result. -/
def IterRes.state : IterRes → RunSt
  | IterRes.continueRun s => s
  | IterRes.stopRun _ s => s

/-- The runner state carried by an output-validation result. -/
def OutputsRes.state : OutputsRes → RunSt
  | OutputsRes.okOut s => s
  | OutputsRes.failOut _ s => s

/-- Whether the loop-count entry of one phase respects its on-failure
maximum (phases without a policy are unconstrained). -/
def phaseCountOk (m : List (String × Int)) (p : Phase) : Bool :=
  match p.onFail with
  | some pol => decide (lookupCount m p.name ≤ pol.max)
  | none => true

/-- The loop-count table never records more than any phase's
on-failure maximum. -/
def countsBounded (cfg : Config) (m : List (String × Int)) : Prop :=
  ∀ p ∈ cfg.phases, phaseCountOk m p = true

/-- Every loop-count table persisted in the write trace is bounded. -/
def writesBounded (cfg : Config) (ws : List WriteEvt) : Prop :=
  ∀ m, WriteEvt.wLoopCounts m ∈ ws → countsBounded cfg m

lemma lookupCount_setCount_self (m : List (String × Int)) (k : String) (v : Int) :
    lookupCount (setCount m k v) k = v := by
  induction m with
  | nil => simp [setCount, lookupCount]
  | cons kv rest ih =>
      obtain ⟨k0, v0⟩ := kv
      by_cases h : k0 = k
      · simp [setCount, h, lookupCount]
      · simp [setCount, h, lookupCount, ih]

lemma lookupCount_setCount_ne (m : List (String × Int)) (k v key) (h : k ≠ key) :
    lookupCount (setCount m k v) key = lookupCount m key := by
  induction m with
  | nil => simp [setCount, lookupCount, h]
  | cons kv rest ih =>
      obtain ⟨k0, v0⟩ := kv
      by_cases h0 : k0 = k
      · subst h0
        simp [setCount, lookupCount, h]
      · simp [setCount, h0, lookupCount, ih]

lemma countsBounded_setCount (cfg : Config) (m : List (String × Int))
    (p0 : Phase) (pol0 : OnFail) (c : Int)
    (hn : (cfg.phases.map Phase.name).Nodup) (hp0 : p0 ∈ cfg.phases)
    (hpol : p0.onFail = some pol0) (hb : countsBounded cfg m) (hc : c ≤ pol0.max) :
    countsBounded cfg (setCount m p0.name c) := by
  intro p hp
  by_cases hname : p.name = p0.name
  · have hpp : p = p0 := List.inj_on_of_nodup_map hn hp hp0 hname
    subst hpp
    simp [phaseCountOk, hpol, lookupCount_setCount_self, hc]
  · unfold phaseCountOk
    have hlk : lookupCount (setCount m p0.name c) p.name = lookupCount m p.name :=
      lookupCount_setCount_ne m p0.name c p.name (fun h => hname h.symm)
    have hb2 := hb p hp
    unfold phaseCountOk at hb2
    match hof : p.onFail with
    | none => rfl
    | some pol =>
        rw [hof] at hb2
        simp only [hlk]
        exact hb2

lemma writesBounded_append (cfg : Config) (ws l : List WriteEvt)
    (h : writesBounded cfg ws)
    (hl : ∀ m, WriteEvt.wLoopCounts m ∈ l → countsBounded cfg m) :
    writesBounded cfg (ws ++ l) := by
  intro m hm
  rcases List.mem_append.mp hm with hA | hB
  · exact h m hA
  · exact hl m hB

lemma good_failAndHint (cfg : Config) (status : String) (s : RunSt)
    (h1 : countsBounded cfg s.loopCounts) (h2 : writesBounded cfg s.writes) :
    countsBounded cfg (failAndHint status s).loopCounts
    ∧ writesBounded cfg (failAndHint status s).writes := by
  refine ⟨h1, ?_⟩
  intro m hm
  simp only [failAndHint] at hm
  rcases List.mem_append.mp hm with hA | hB
  · exact h2 m hA
  · simp at hB

lemma good_handleOnFail (cfg : Config) (phase : Phase) (pol : OnFail)
    (errMsg output : String) (s : RunSt)
    (hn : (cfg.phases.map Phase.name).Nodup) (hp : phase ∈ cfg.phases)
    (hpol : phase.onFail = some pol)
    (h1 : countsBounded cfg s.loopCounts) (h2 : writesBounded cfg s.writes) :
    countsBounded cfg (handleOnFail cfg phase pol errMsg output s).state.loopCounts
    ∧ writesBounded cfg (handleOnFail cfg phase pol errMsg output s).state.writes := by
  by_cases hmax : pol.max < lookupCount s.loopCounts phase.name + 1
  · simp only [handleOnFail, if_pos hmax, IterRes.state]
    exact good_failAndHint cfg StatusFailed s h1 h2
  · have hc2 : countsBounded cfg
        (setCount s.loopCounts phase.name (lookupCount s.loopCounts phase.name + 1)) :=
      countsBounded_setCount cfg s.loopCounts phase pol _ hn hp hpol h1 (not_lt.mp hmax)
    have hw1 : writesBounded cfg
        (s.writes ++ [WriteEvt.wLoopCounts
          (setCount s.loopCounts phase.name (lookupCount s.loopCounts phase.name + 1))]) := by
      apply writesBounded_append cfg _ _ h2
      intro m hm
      simp at hm
      rw [hm]
      exact hc2
    have hw2 : writesBounded cfg
        ((s.writes ++ [WriteEvt.wLoopCounts
            (setCount s.loopCounts phase.name (lookupCount s.loopCounts phase.name + 1))])
          ++ [WriteEvt.wFeedback phase.name
              (if output = "" then errMsg else output)]) := by
      apply writesBounded_append cfg _ _ hw1
      intro m hm
      simp at hm
    simp only [handleOnFail, if_neg hmax]
    by_cases hgoto : cfg.PhaseIndex pol.goto < 0
    · simp only [if_pos hgoto, IterRes.state]
      refine ⟨hc2, ?_⟩
      intro m hm
      simp only [failAndHint] at hm
      rcases List.mem_append.mp hm with hA | hB
      · exact hw2 m hA
      · simp at hB
    · simp only [if_neg hgoto, IterRes.state]
      refine ⟨hc2, ?_⟩
      intro m hm
      rcases List.mem_append.mp hm with hA | hB
      · exact hw2 m hA
      · simp at hB

lemma good_checkOutputsStep (cfg : Config) (w : World) (phase : Phase) (s : RunSt)
    (h1 : countsBounded cfg s.loopCounts) (h2 : writesBounded cfg s.writes) :
    countsBounded cfg (checkOutputsStep w phase s).state.loopCounts
    ∧ writesBounded cfg (checkOutputsStep w phase s).state.writes := by
  have hspec := issueReprompts_spec w phase (CheckOutputs s.fs phase.outputs) s
  by_cases houts : phase.outputs.isEmpty
  · simp only [checkOutputsStep, if_pos houts, OutputsRes.state]
    exact ⟨h1, h2⟩
  · by_cases hrp : (!(CheckOutputs s.fs phase.outputs).isEmpty && (phase.ptype == "agent")) = true
    · simp only [checkOutputsStep, if_neg houts, hrp, if_true]
      split
      · simp only [OutputsRes.state]
        exact good_failAndHint cfg StatusFailed _
          (by rw [hspec.2.1]; exact h1) (by rw [hspec.2.2.1]; exact h2)
      · simp only [OutputsRes.state]
        exact ⟨by rw [hspec.2.1]; exact h1, by rw [hspec.2.2.1]; exact h2⟩
    · rw [Bool.not_eq_true] at hrp
      simp only [checkOutputsStep, if_neg houts, hrp, Bool.false_eq_true, if_false]
      split
      · simp only [OutputsRes.state]
        exact good_failAndHint cfg StatusFailed _ h1 h2
      · simp only [OutputsRes.state]
        exact ⟨h1, h2⟩

lemma good_runParallelStep (cfg : Config) (w : World) (idx1 idx2 : Int) (s : RunSt)
    (h1 : countsBounded cfg s.loopCounts) (h2 : writesBounded cfg s.writes) :
    countsBounded cfg (runParallelStep w cfg idx1 idx2 s).state.loopCounts
    ∧ writesBounded cfg (runParallelStep w cfg idx1 idx2 s).state.writes := by
  simp only [runParallelStep]
  repeat' split
  all_goals simp only [IterRes.state]
  all_goals
    first
      | exact good_failAndHint cfg StatusInterrupted _ h1 h2
      | exact good_failAndHint cfg StatusFailed _ h1 h2
      | (refine ⟨h1, ?_⟩
         intro m hm
         rcases List.mem_append.mp hm with hA | hB
         · exact h2 m hA
         · simp at hB)

lemma writesBounded_state_pair (cfg : Config) (ws : List WriteEvt)
    (st2 : GoState) (h : writesBounded cfg ws) :
    writesBounded cfg (ws ++ [WriteEvt.wState st2, WriteEvt.wTiming]) := by
  intro m hm
  rcases List.mem_append.mp hm with hA | hB
  · exact h m hA
  · simp at hB

lemma writesBounded_state_one (cfg : Config) (ws : List WriteEvt)
    (st2 : GoState) (h : writesBounded cfg ws) :
    writesBounded cfg (ws ++ [WriteEvt.wState st2]) := by
  intro m hm
  rcases List.mem_append.mp hm with hA | hB
  · exact h m hA
  · simp at hB

lemma writesBounded_timing_state (cfg : Config) (ws : List WriteEvt)
    (st2 : GoState) (h : writesBounded cfg ws) :
    writesBounded cfg (ws ++ [WriteEvt.wTiming, WriteEvt.wState st2]) := by
  intro m hm
  rcases List.mem_append.mp hm with hA | hB
  · exact h m hA
  · simp at hB

lemma good_runIter (cfg : Config) (w : World) (s : RunSt)
    (hn : (cfg.phases.map Phase.name).Nodup)
    (h1 : countsBounded cfg s.loopCounts) (h2 : writesBounded cfg s.writes) :
    countsBounded cfg (runIter w cfg s).state.loopCounts
    ∧ writesBounded cfg (runIter w cfg s).state.writes := by
  simp only [runIter]
  by_cases hlt : s.st.phaseIndex < (cfg.phases.length : Int)
  case neg =>
    simp only [if_neg hlt, IterRes.state]
    exact ⟨h1, writesBounded_state_pair cfg s.writes _ h2⟩
  case pos =>
  rw [if_pos hlt]
  by_cases hneg : s.st.phaseIndex < 0
  · simp only [if_pos hneg, IterRes.state]
    exact ⟨h1, h2⟩
  rw [if_neg hneg]
  have hp : cfg.phases.getD s.st.phaseIndex.toNat {} ∈ cfg.phases := by
    have hlen : s.st.phaseIndex.toNat < cfg.phases.length := by omega
    rw [List.getD_eq_getElem?_getD, List.getElem?_eq_getElem hlen]
    exact List.getElem_mem hlen
  by_cases hctx : w.ctxErr s.ctxN
  · simp only [if_pos hctx, IterRes.state]
    exact good_failAndHint cfg StatusInterrupted _ h1 h2
  rw [if_neg hctx]
  by_cases hskip :
      ((cfg.phases.getD s.st.phaseIndex.toNat {}).condition != ""
        && !(w.condOk s.condN)) = true
  · simp only [if_pos hskip, IterRes.state]
    exact ⟨h1, writesBounded_state_one cfg s.writes _ h2⟩
  rw [if_neg hskip]
  by_cases hpnf : (cfg.phases.getD s.st.phaseIndex.toNat {}).parallelWith ≠ ""
      ∧ cfg.PhaseIndex (cfg.phases.getD s.st.phaseIndex.toNat {}).parallelWith < 0
  · simp only [if_pos hpnf, IterRes.state]
    exact good_failAndHint cfg StatusFailed _ h1 h2
  rw [if_neg hpnf]
  by_cases hpar : (cfg.phases.getD s.st.phaseIndex.toNat {}).parallelWith ≠ ""
      ∧ s.st.phaseIndex < cfg.PhaseIndex (cfg.phases.getD s.st.phaseIndex.toNat {}).parallelWith
  · simp only [if_pos hpar]
    exact good_runParallelStep cfg w _ _ _ h1 h2
  rw [if_neg hpar]
  by_cases hctx2 : w.ctxErr (s.ctxN + 1)
  · simp only [if_pos hctx2, IterRes.state]
    exact good_failAndHint cfg StatusInterrupted _ h1 h2
  rw [if_neg hctx2]
  by_cases hfail : ((w.dispatchErr s.dispN).isSome
      || (match w.dispatchExit s.dispN with
          | some (code, _) => code != 0
          | none => false)) = true
  · rw [if_pos hfail]
    rcases hof : (cfg.phases.getD s.st.phaseIndex.toNat {}).onFail with _ | pol
    · simp only [hof, IterRes.state]
      exact good_failAndHint cfg StatusFailed _ h1 h2
    · simp only [hof]
      exact good_handleOnFail cfg _ pol _ _ _ hn hp hof h1 h2
  rw [if_neg hfail]
  have hgood := good_checkOutputsStep cfg w (cfg.phases.getD s.st.phaseIndex.toNat {}) { s with ctxN := s.ctxN + 1 + 1, condN := s.condN + 1, dispN := s.dispN + 1, fs := s.fs ++ w.dispatchCreates s.dispN } h1 h2
  revert hgood
  split
  next err s4 heq =>
    intro hgood
    rw [heq] at hgood
    simp only [OutputsRes.state] at hgood
    simp only [IterRes.state]
    exact hgood
  next s4 heq =>
    intro hgood
    rw [heq] at hgood
    simp only [OutputsRes.state] at hgood
    simp only [IterRes.state]
    exact ⟨hgood.1, writesBounded_timing_state cfg s4.writes _ hgood.2⟩

lemma good_runLoop (cfg : Config) (w : World) (fuel : Nat) (s : RunSt)
    (hn : (cfg.phases.map Phase.name).Nodup)
    (h1 : countsBounded cfg s.loopCounts) (h2 : writesBounded cfg s.writes) :
    countsBounded cfg (runLoop w cfg fuel s).2.loopCounts
    ∧ writesBounded cfg (runLoop w cfg fuel s).2.writes := by
  induction fuel generalizing s with
  | zero => exact ⟨h1, h2⟩
  | succ fuel ih =>
      have hgood := good_runIter cfg w s hn h1 h2
      rw [runLoop]
      rcases hit : runIter w cfg s with s2 | ⟨out, s2⟩
      · rw [hit] at hgood
        exact ih s2 hgood.1 hgood.2
      · rw [hit] at hgood
        exact hgood

/-- C1: when a phase with an on-failure policy fails, the runner
increments that phase's loop count and persists the updated table
(the write trace records the incremented table, and control loops back
to the goto target); when the incremented count would exceed the
policy's max, the run instead stops with status failed, without
touching the recorded table; a stop returned by an iteration is the
final result of the run loop; and on every run, starting from a
bounded table with a bounded write trace, the loop-count table — both
its final value and every table ever persisted — never exceeds any
phase's max. -/
theorem loop_count_protocol :
    (∀ (cfg : Config) (phase : Phase) (pol : OnFail) (errMsg output : String) (s : RunSt),
        pol.max < lookupCount s.loopCounts phase.name + 1 →
        handleOnFail cfg phase pol errMsg output s
            = IterRes.stopRun (some "phase exceeded max retries") (failAndHint StatusFailed s)
          ∧ (failAndHint StatusFailed s).st.status = StatusFailed
          ∧ (failAndHint StatusFailed s).loopCounts = s.loopCounts)
    ∧ (∀ (cfg : Config) (phase : Phase) (pol : OnFail) (errMsg output : String) (s : RunSt),
        lookupCount s.loopCounts phase.name + 1 ≤ pol.max →
        0 ≤ cfg.PhaseIndex pol.goto →
        ∃ s2, handleOnFail cfg phase pol errMsg output s = IterRes.continueRun s2
          ∧ s2.loopCounts
              = setCount s.loopCounts phase.name (lookupCount s.loopCounts phase.name + 1)
          ∧ WriteEvt.wLoopCounts s2.loopCounts ∈ s2.writes
          ∧ s2.st.phaseIndex = cfg.PhaseIndex pol.goto)
    ∧ (∀ (w : World) (cfg : Config) (out : Option String) (s s2 : RunSt),
        runIter w cfg s = IterRes.stopRun out s2 →
        ∀ fuel, runLoop w cfg (fuel + 1) s = (out, s2))
    ∧ (∀ (w : World) (cfg : Config) (fuel : Nat) (s : RunSt),
        (cfg.phases.map Phase.name).Nodup →
        countsBounded cfg s.loopCounts →
        writesBounded cfg s.writes →
        countsBounded cfg (runLoop w cfg fuel s).2.loopCounts
          ∧ writesBounded cfg (runLoop w cfg fuel s).2.writes) := by
  refine ⟨?_, ?_, ?_, fun w cfg fuel s => good_runLoop cfg w fuel s⟩
  · intro cfg phase pol errMsg output s hmax
    refine ⟨?_, rfl, rfl⟩
    simp only [handleOnFail, if_pos hmax]
  · intro cfg phase pol errMsg output s hle hgoto
    have hmax : ¬ (pol.max < lookupCount s.loopCounts phase.name + 1) := not_lt.mpr hle
    have hg : ¬ (cfg.PhaseIndex pol.goto < 0) := not_lt.mpr hgoto
    simp only [handleOnFail, if_neg hmax, if_neg hg]
    refine ⟨_, rfl, rfl, ?_, rfl⟩
    simp [List.mem_append]
  · intro w cfg out s s2 hit fuel
    rw [runLoop, hit]

/-- World of the retry-exhaustion scenario: the first phase succeeds
and the retried phase always fails. -/
def c1World : World :=
  { ctxErr := fun _ => false
  , condOk := fun _ => true
  , dispatchExit := fun n => if n % 2 = 1 then some (1, "fail") else some (0, "")
  , dispatchErr := fun _ => none
  , dispatchCreates := fun _ => []
  , turnCreates := fun _ => []
  , parallelFirstIsLower := fun _ => true }

/-- Retried phase of the exhaustion scenario: on failure loop back to
phase a, at most twice. -/
def c1PhaseB : Phase :=
  { name := "b", ptype := "script", run := "echo", onFail := some { goto := "a", max := 2 } }

/-- Policy of the retried phase. -/
def c1Pol : OnFail := { goto := "a", max := 2 }

/-- Two-phase workflow of the exhaustion scenario. -/
def c1Cfg : Config :=
  { name := "t", phases := [{ name := "a", ptype := "script", run := "echo" }, c1PhaseB] }

/-- Runner state in which the retried phase has already looped back
the maximum number of times. -/
def c1St : RunSt :=
  { st := { phaseIndex := 1, ticket := "T-1", status := "running" }, loopCounts := [("b", 2)] }

/-- Witness for C1: the exceeded-max case applied at a phase whose
recorded loop count equals its max, and the boundedness invariant
applied to a full run of the exhaustion scenario. -/
theorem loop_count_protocol_witness :
    (handleOnFail c1Cfg c1PhaseB c1Pol ("non-zero exit") ("fail") c1St
        = IterRes.stopRun (some "phase exceeded max retries") (failAndHint StatusFailed c1St)
      ∧ (failAndHint StatusFailed c1St).st.status = StatusFailed
      ∧ (failAndHint StatusFailed c1St).loopCounts = c1St.loopCounts)
    ∧ (countsBounded c1Cfg (runLoop c1World c1Cfg 10 c1St).2.loopCounts
      ∧ writesBounded c1Cfg (runLoop c1World c1Cfg 10 c1St).2.writes) :=
  ⟨loop_count_protocol.1 c1Cfg c1PhaseB c1Pol ("non-zero exit") ("fail") c1St (by decide),
    loop_count_protocol.2.2.2 c1World c1Cfg 10 c1St (by decide)
      (by unfold countsBounded; decide)
      (by intro m hm; simp [c1St] at hm)⟩

end Orc
